import Mathlib

/-!
Verification of the h1module HackerOne CLI client (src/h1.go).

The Go source is shallowly embedded: pure data shapes become Lean
structures, the HTTP layer becomes an explicit oracle (`world`) mapping a
URL to a transport outcome, JSON decoding of a page body becomes an
oracle folded into `PageResult`, and the pagination loop becomes a
fuel-indexed recursion (`none` = fuel exhausted, modelling divergence).
Machine integers do not occur in the modelled fragment; counters are Nat.
-/

namespace H1Module

/-- Embeds the `attributes` sub-struct of the Go `Program` struct
(h1.go lines 26-34), with the JSON tag names as field names. -/
structure ProgramAttributes where
  handle : String
  name : String
  currency : String
  policy : String
  state : String
  offers_bounties : Bool
  open_scope : Bool
deriving DecidableEq, Repr

/-- Embeds the Go `Program` struct (h1.go lines 23-35). -/
structure Program where
  id : String
  type : String
  attributes : ProgramAttributes
deriving DecidableEq, Repr

/-- Embeds the Go `ProgramsResponse` struct (h1.go lines 38-41): the page
envelope `{ "data": [...], "links": {...} }`.  The Go `map[string]string`
is embedded as an association list; a JSON body with no `links` object
leaves the Go map nil, which behaves exactly like the empty list here
(every lookup misses). -/
structure ProgramsResponse where
  Data : List Program
  Links : List (String × String)
deriving DecidableEq, Repr

/-- Embeds the Go `H1Client` struct (h1.go lines 15-20).
`RateLimitDelay` is in milliseconds. -/
structure H1Client where
  Username : String
  APIToken : String
  BaseURL : String
  RateLimitDelay : Nat
deriving DecidableEq, Repr

/-- The fixed base URL constant appearing in `NewH1Client` (h1.go line 85)
and in `extractEndpoint` (h1.go line 163). -/
def baseURL : String := "https://api.hackerone.com/v1/hackers"

/-- Embeds `NewH1Client` (h1.go lines 81-88): 600 requests per minute
gives a 100ms delay. -/
def NewH1Client (username token : String) : H1Client :=
  { Username := username
    APIToken := token
    BaseURL := baseURL
    RateLimitDelay := 100 }

/-- Embeds `extractEndpoint` (h1.go lines 161-168):
`strings.HasPrefix` / `strings.TrimPrefix` against the base URL, at the
character-list level (`String.data`); `TrimPrefix` drops exactly the
length of the matched prefix. -/
def extractEndpoint (fullURL : String) : String :=
  if baseURL.data.isPrefixOf fullURL.data then
    String.mk (fullURL.data.drop baseURL.data.length)
  else
    fullURL

/-- One HTTP response as seen by `makeRequest`: status code, status line,
and the outcome of reading the body (`ioutil.ReadAll` can fail, which
is the `Except.error` case). -/
structure HttpResponse where
  StatusCode : Nat
  Status : String
  Body : Except String String
deriving Repr

/-- The URL built at h1.go line 92: `c.BaseURL + endpoint`. -/
def requestURL (c : H1Client) (endpoint : String) : String :=
  c.BaseURL ++ endpoint

/-- Embeds `makeRequest` (h1.go lines 91-119).  The network is an oracle
`world` from the full URL to either a transport error or a response.
A non-200 status short-circuits before the body is read; otherwise the
body-read outcome is returned as is.  There is no retry: the oracle is
consulted exactly once, on the single URL `requestURL c endpoint`. -/
def makeRequest (world : String → Except String HttpResponse)
    (c : H1Client) (method endpoint : String) : Except String String :=
  let _ := method
  let url := requestURL c endpoint
  match world url with
  | Except.error e => Except.error e
  | Except.ok resp =>
    if resp.StatusCode ≠ 200 then
      Except.error ("API request failed with status: " ++ resp.Status)
    else
      match resp.Body with
      | Except.error e => Except.error e
      | Except.ok body => Except.ok body

/-- Outcome of fetching and decoding one page inside
`GetAllProgramsPaginated`: `fetchErr` is an error from `makeRequest`
(h1.go line 131), `parseErr` an error from `json.Unmarshal`
(h1.go line 137), `ok` a decoded `ProgramsResponse`. -/
inductive PageResult where
  | fetchErr (e : String)
  | parseErr (e : String)
  | ok (response : ProgramsResponse)
deriving DecidableEq, Repr

/-- Ties the page oracle to the HTTP layer: `makeRequest` followed by an
`unmarshal` oracle modelling `json.Unmarshal` on the returned bytes.
Every `world`/`unmarshal` pair induces a page oracle of the shape the
pagination loop consumes. -/
def pageResultOf (world : String → Except String HttpResponse)
    (unmarshal : String → Except String ProgramsResponse)
    (c : H1Client) (endpoint : String) : PageResult :=
  match makeRequest world c "GET" endpoint with
  | Except.error e => PageResult.fetchErr e
  | Except.ok body =>
    match unmarshal body with
    | Except.error e => PageResult.parseErr e
    | Except.ok response => PageResult.ok response

/-- Instrumentation carried through the pagination loop: the Go `page`
counter (h1.go line 125), plus a count of `makeRequest` calls and of
`time.Sleep` calls (h1.go line 151). -/
structure LoopStats where
  page : Nat
  requests : Nat
  delays : Nat
deriving DecidableEq, Repr

/-- Embeds the body of `GetAllProgramsPaginated` (h1.go lines 122-158) as
a fuel-indexed recursion; `none` means the fuel ran out (the Go loop is
still running).  Mirrors the source exactly: the loop guard is
`nextURL != ""`; a fetch error aborts with `error fetching page N`, a
parse error with `error parsing page N`; on success the page items are
appended, and if `Links["next"]` exists and is non-empty the loop
follows `extractEndpoint` of it, increments `page` and sleeps once,
otherwise `nextURL` is set to `""` and the guard exits the loop. -/
def getAllProgramsPaginatedAux (fetch : String → PageResult) :
    Nat → String → List Program → LoopStats →
    Option (Except String (List Program × LoopStats))
  | 0, _, _, _ => none
  | fuel + 1, nextURL, allPrograms, stats =>
    if nextURL = "" then
      some (Except.ok (allPrograms, stats))
    else
      match fetch nextURL with
      | PageResult.fetchErr e =>
        some (Except.error
          ("error fetching page " ++ toString stats.page ++ ": " ++ e))
      | PageResult.parseErr e =>
        some (Except.error
          ("error parsing page " ++ toString stats.page ++ ": " ++ e))
      | PageResult.ok response =>
        let allPrograms2 := allPrograms ++ response.Data
        match response.Links.lookup "next" with
        | some nextLink =>
          if nextLink = "" then
            getAllProgramsPaginatedAux fetch fuel "" allPrograms2
              { stats with requests := stats.requests + 1 }
          else
            getAllProgramsPaginatedAux fetch fuel (extractEndpoint nextLink)
              allPrograms2
              ⟨stats.page + 1, stats.requests + 1, stats.delays + 1⟩
        | none =>
          getAllProgramsPaginatedAux fetch fuel "" allPrograms2
            { stats with requests := stats.requests + 1 }

/-- Embeds `GetAllProgramsPaginated` (h1.go lines 122-158): the loop
started on `"/programs"` with `page = 1` and empty accumulator. -/
def GetAllProgramsPaginated (fetch : String → PageResult) (fuel : Nat) :
    Option (Except String (List Program × LoopStats)) :=
  getAllProgramsPaginatedAux fetch fuel "/programs" [] ⟨1, 0, 0⟩

/-- The raw `next` link of a page: `response.Links["next"]`
(h1.go line 145). -/
def nextLinkOf (r : ProgramsResponse) : Option String :=
  r.Links.lookup "next"

/-- The Go condition `exists && nextLink != ""` at h1.go line 145. -/
def hasNext (r : ProgramsResponse) : Bool :=
  match r.Links.lookup "next" with
  | some l => !(l == "")
  | none => false

/-- The cursor the loop follows out of a page: `extractEndpoint` of its
`next` link (h1.go line 147). -/
def nextCursor (r : ProgramsResponse) : String :=
  extractEndpoint ((r.Links.lookup "next").getD "")

/-- A terminating chain of pages served by the page oracle starting at
cursor `c`: every page but the last carries a non-empty `next` link whose
extracted endpoint is also non-empty and leads to the next page; the last
page fails the `exists && nextLink != ""` test. -/
def chainFrom (fetch : String → PageResult) :
    String → List ProgramsResponse → Prop
  | _, [] => False
  | c, [p] => fetch c = PageResult.ok p ∧ hasNext p = false
  | c, p :: q :: ps =>
    fetch c = PageResult.ok p ∧ hasNext p = true ∧ nextCursor p ≠ "" ∧
    chainFrom fetch (nextCursor p) (q :: ps)

/-- The chain notion in the claim's own words: every page but the last
carries a non-empty `next` link leading (via `extractEndpoint`) to the
next page, with no condition on the extracted endpoint itself. -/
def specChainFrom (fetch : String → PageResult) :
    String → List ProgramsResponse → Prop
  | _, [] => False
  | c, [p] => fetch c = PageResult.ok p ∧ hasNext p = false
  | c, p :: q :: ps =>
    fetch c = PageResult.ok p ∧ hasNext p = true ∧
    specChainFrom fetch (nextCursor p) (q :: ps)

/-- A non-terminating prefix of pages served by the oracle: every page
carries a non-empty `next` link with a non-empty extracted endpoint. -/
def prefixChain (fetch : String → PageResult) :
    String → List ProgramsResponse → Prop
  | _, [] => True
  | c, p :: ps =>
    fetch c = PageResult.ok p ∧ hasNext p = true ∧ nextCursor p ≠ "" ∧
    prefixChain fetch (nextCursor p) ps

/-- The cursor reached after following a prefix of pages from `c`. -/
def endCursor : String → List ProgramsResponse → String
  | c, [] => c
  | _, p :: ps => endCursor (nextCursor p) ps

/-! ### JSON model for the save path

`SaveProgramsToFile` (h1.go lines 171-184) writes
`json.MarshalIndent(programs, "", "  ")` to a file.  The document is
modelled structurally: `Json` is the tree the marshaller renders and the
parser recovers (indentation affects only the text, not the tree).
Decoding mirrors `json.Unmarshal` into the `Program` struct: fields are
located by name (so field order in an object is irrelevant), a missing
field keeps the Go zero value, and a type mismatch is a decode error. -/

inductive Json where
  | str (s : String)
  | bool (b : Bool)
  | arr (elems : List Json)
  | obj (fields : List (String × Json))
deriving Repr

/-- Field access as `json.Unmarshal` performs it for a `string` field:
missing field keeps the zero value `""`, mismatched type is an error. -/
def getStr (fields : List (String × Json)) (k : String) : Option String :=
  match fields.lookup k with
  | some (Json.str s) => some s
  | some _ => none
  | none => some ""

/-- Field access for a `bool` field: zero value `false` when missing. -/
def getBool (fields : List (String × Json)) (k : String) : Option Bool :=
  match fields.lookup k with
  | some (Json.bool b) => some b
  | some _ => none
  | none => some false

/-- The Go zero value of the `attributes` sub-struct. -/
def zeroAttributes : ProgramAttributes := ⟨"", "", "", "", "", false, false⟩

/-- The JSON object `json.Marshal` produces for the `attributes`
sub-struct, with its tag names. -/
def encodeAttributes (a : ProgramAttributes) : Json :=
  Json.obj
    [("handle", Json.str a.handle),
     ("name", Json.str a.name),
     ("currency", Json.str a.currency),
     ("policy", Json.str a.policy),
     ("state", Json.str a.state),
     ("offers_bounties", Json.bool a.offers_bounties),
     ("open_scope", Json.bool a.open_scope)]

/-- The JSON object `json.Marshal` produces for one `Program`. -/
def encodeProgram (p : Program) : Json :=
  Json.obj
    [("id", Json.str p.id),
     ("type", Json.str p.type),
     ("attributes", encodeAttributes p.attributes)]

/-- The same objects with every field list reversed: a field-order
permutation of the serialized form. -/
def encodeProgramRev (p : Program) : Json :=
  Json.obj
    [("attributes", Json.obj
        [("open_scope", Json.bool p.attributes.open_scope),
         ("offers_bounties", Json.bool p.attributes.offers_bounties),
         ("state", Json.str p.attributes.state),
         ("policy", Json.str p.attributes.policy),
         ("currency", Json.str p.attributes.currency),
         ("name", Json.str p.attributes.name),
         ("handle", Json.str p.attributes.handle)]),
     ("type", Json.str p.type),
     ("id", Json.str p.id)]

/-- The JSON document `SaveProgramsToFile` marshals and writes: the
array of encoded programs (h1.go line 172); `ioutil.WriteFile` then
persists its indented rendering unchanged. -/
def SaveProgramsToFileContent (programs : List Program) : Json :=
  Json.arr (programs.map encodeProgram)

/-- The same document with every object's fields reversed. -/
def savedContentRev (programs : List Program) : Json :=
  Json.arr (programs.map encodeProgramRev)

/-- `json.Unmarshal` into the `attributes` sub-struct. -/
def decodeAttributes : Json → Option ProgramAttributes
  | Json.obj fs =>
    (getStr fs "handle").bind fun handle =>
    (getStr fs "name").bind fun name =>
    (getStr fs "currency").bind fun currency =>
    (getStr fs "policy").bind fun policy =>
    (getStr fs "state").bind fun state =>
    (getBool fs "offers_bounties").bind fun ob =>
    (getBool fs "open_scope").bind fun os =>
    some ⟨handle, name, currency, policy, state, ob, os⟩
  | _ => none

/-- `json.Unmarshal` into one `Program` struct. -/
def decodeProgram : Json → Option Program
  | Json.obj fs =>
    (getStr fs "id").bind fun id =>
    (getStr fs "type").bind fun ty =>
    (match fs.lookup "attributes" with
     | some j => decodeAttributes j
     | none => some zeroAttributes).bind fun attrs =>
    some ⟨id, ty, attrs⟩
  | _ => none

/-- Element-wise decoding of a JSON array of programs. -/
def decodeProgramList : List Json → Option (List Program)
  | [] => some []
  | j :: js =>
    (decodeProgram j).bind fun p =>
    (decodeProgramList js).bind fun ps =>
    some (p :: ps)

/-- `json.Unmarshal` into `[]Program`. -/
def unmarshalPrograms : Json → Option (List Program)
  | Json.arr xs => decodeProgramList xs
  | _ => none

/-! ### Command-line surface (`main`, h1.go lines 314-408) -/

/-- Embeds `strings.ToLower`, which lowercases each rune of the string
independently through `unicode.ToLower`.  The Unicode simple case
mapping is standard-library table data and is not reimplemented here:
like the network (`world`) and `json.Unmarshal` (`unmarshal`) layers,
the per-rune mapping is an oracle parameter `lowerRune`, and the
dispatch theorems hold for every such mapping — in particular for the
real one.  `Char.toLower` is its basic-latin fragment. -/
def ToLower (lowerRune : Char → Char) (s : String) : String :=
  String.mk (s.data.map lowerRune)

/-- `os.Getenv`: an unset variable reads as the empty string. -/
def getenv (env : String → Option String) (name : String) : String :=
  (env name).getD ""

/-- What `main` decides to do before any client call is issued: either a
fatal log message, the usage text, or one of the six API-calling modes
(which are the only actions that reach the network). -/
inductive CommandAction where
  | fatal (msg : String)
  | usage
  | scopes (handle : String)
  | weaknesses (handle : String)
  | programs
  | programsAll
  | programsAllSave (filename : String)
  | program (handle : String)
deriving DecidableEq, Repr

/-- The fatal message of the `default` branch of the switch
(h1.go line 406). -/
def invalidModeMsg : String :=
  "Invalid mode. Use: scopes, weaknesses, programs, programs-all, programs-all-save, or program"

/-- The fatal message of the credentials check (h1.go line 320). -/
def missingCredsMsg : String :=
  "Please set HACKERONE_USERNAME and HACKERONE_TOKEN environment variables"

/-- The six subcommand names of the switch (h1.go lines 339-403). -/
def subcommandNames : List String :=
  ["scopes", "weaknesses", "programs", "programs-all", "programs-all-save", "program"]

/-- Embeds the switch on `strings.ToLower(mode)` (h1.go lines 338-407).
Each case consults only the already-lowered mode, the argument count
`len(os.Args)` and the positional argument `os.Args[2]`. -/
def dispatchMode (lmode : String) (argc : Nat) (arg2 : String) : CommandAction :=
  if lmode = "scopes" then
    if argc < 3 then CommandAction.fatal "Please provide a program handle"
    else CommandAction.scopes arg2
  else if lmode = "weaknesses" then
    if argc < 3 then CommandAction.fatal "Please provide a program handle"
    else CommandAction.weaknesses arg2
  else if lmode = "programs" then CommandAction.programs
  else if lmode = "programs-all" then CommandAction.programsAll
  else if lmode = "programs-all-save" then
    if argc < 3 then CommandAction.fatal "Please provide a filename"
    else CommandAction.programsAllSave arg2
  else if lmode = "program" then
    if argc < 3 then CommandAction.fatal "Please provide a program handle"
    else CommandAction.program arg2
  else CommandAction.fatal invalidModeMsg

/-- Embeds `main` (h1.go lines 314-408) up to the point where the chosen
client call would run: credentials are checked first, then the argument
count, then the switch on the lowered `os.Args[1]`.  `args` is `os.Args`
including the program name at index 0; `lowerRune` is the per-rune case
mapping of `strings.ToLower` (see `ToLower`). -/
def mainAction (lowerRune : Char → Char) (env : String → Option String)
    (args : List String) : CommandAction :=
  let username := getenv env "HACKERONE_USERNAME"
  let token := getenv env "HACKERONE_TOKEN"
  if username = "" ∨ token = "" then
    CommandAction.fatal missingCredsMsg
  else if args.length < 2 then
    CommandAction.usage
  else
    dispatchMode (ToLower lowerRune (args.getD 1 "")) args.length
      (args.getD 2 "")

/-- Whether an action reaches the network: exactly the six client-calling
modes do; a fatal log message and the usage text do not. -/
def isNetworkAction : CommandAction → Bool
  | CommandAction.fatal _ => false
  | CommandAction.usage => false
  | _ => true

/-! ### Helper lemmas about the pagination loop -/

lemma hasNext_false_cases {p : ProgramsResponse} (h : hasNext p = false) :
    p.Links.lookup "next" = none ∨ p.Links.lookup "next" = some "" := by
  unfold hasNext at h
  cases hl : p.Links.lookup "next" with
  | none => exact Or.inl rfl
  | some l =>
    rw [hl] at h
    simp only [Bool.not_eq_false', beq_iff_eq] at h
    exact Or.inr (by rw [h])

lemma hasNext_true_cases {p : ProgramsResponse} (h : hasNext p = true) :
    ∃ l, p.Links.lookup "next" = some l ∧ l ≠ "" := by
  unfold hasNext at h
  cases hl : p.Links.lookup "next" with
  | none => rw [hl] at h; cases h
  | some l =>
    rw [hl] at h
    simp only [Bool.not_eq_true', beq_eq_false_iff_ne, ne_eq] at h
    exact ⟨l, rfl, h⟩

/-- One loop iteration on a terminal page: the items are appended, the
request is counted, `nextURL` becomes `""` and the guard then returns;
no delay is performed and `page` does not advance. -/
lemma aux_terminal_step (fetch : String → PageResult) (p : ProgramsResponse)
    (c : String) (acc : List Program) (s : LoopStats) (fuel : Nat)
    (hc : c ≠ "") (hf : fetch c = PageResult.ok p) (hn : hasNext p = false) :
    getAllProgramsPaginatedAux fetch (fuel + 2) c acc s =
      some (Except.ok (acc ++ p.Data, ⟨s.page, s.requests + 1, s.delays⟩)) := by
  simp only [getAllProgramsPaginatedAux, if_neg hc, hf]
  rcases hasNext_false_cases hn with hl | hl <;>
    simp [hl, getAllProgramsPaginatedAux]

/-- One loop iteration on a page with a non-empty `next` link: the items
are appended, the request, the page counter and one delay are recorded,
and the loop continues at the extracted endpoint. -/
lemma aux_follow_step (fetch : String → PageResult) (p : ProgramsResponse)
    (l c : String) (acc : List Program) (s : LoopStats) (fuel : Nat)
    (hc : c ≠ "") (hf : fetch c = PageResult.ok p)
    (hl : p.Links.lookup "next" = some l) (hlne : l ≠ "") :
    getAllProgramsPaginatedAux fetch (fuel + 1) c acc s =
      getAllProgramsPaginatedAux fetch fuel (extractEndpoint l) (acc ++ p.Data)
        ⟨s.page + 1, s.requests + 1, s.delays + 1⟩ := by
  simp only [getAllProgramsPaginatedAux, if_neg hc, hf, hl, if_neg hlne]

/-- A failing `makeRequest` aborts the loop with the page index in the
message and no items. -/
lemma aux_fetchErr_step (fetch : String → PageResult) (e c : String)
    (acc : List Program) (s : LoopStats) (fuel : Nat)
    (hc : c ≠ "") (hf : fetch c = PageResult.fetchErr e) :
    getAllProgramsPaginatedAux fetch (fuel + 1) c acc s =
      some (Except.error
        ("error fetching page " ++ toString s.page ++ ": " ++ e)) := by
  simp only [getAllProgramsPaginatedAux, if_neg hc, hf]

/-- A failing `json.Unmarshal` aborts the loop with the page index in
the message and no items. -/
lemma aux_parseErr_step (fetch : String → PageResult) (e c : String)
    (acc : List Program) (s : LoopStats) (fuel : Nat)
    (hc : c ≠ "") (hf : fetch c = PageResult.parseErr e) :
    getAllProgramsPaginatedAux fetch (fuel + 1) c acc s =
      some (Except.error
        ("error parsing page " ++ toString s.page ++ ": " ++ e)) := by
  simp only [getAllProgramsPaginatedAux, if_neg hc, hf]

/-- Running the loop over a whole terminating chain: every page's items
are appended in order, one request per page, one delay per followed
link (that is, per page except the last). -/
lemma aux_chainFrom (fetch : String → PageResult) :
    ∀ (tail : List ProgramsResponse) (p : ProgramsResponse) (c : String)
      (acc : List Program) (s : LoopStats) (fuel : Nat),
      chainFrom fetch c (p :: tail) → c ≠ "" → tail.length + 2 ≤ fuel →
      getAllProgramsPaginatedAux fetch fuel c acc s =
        some (Except.ok
          (acc ++ ((p :: tail).map ProgramsResponse.Data).flatten,
           ⟨s.page + tail.length, s.requests + tail.length + 1,
            s.delays + tail.length⟩)) := by
  intro tail
  induction tail with
  | nil =>
    intro p c acc s fuel h hc hfuel
    obtain ⟨hf, hn⟩ := h
    match fuel, hfuel with
    | fuel + 2, _ =>
      rw [aux_terminal_step fetch p c acc s fuel hc hf hn]
      simp
  | cons q ps ih =>
    intro p c acc s fuel h hc hfuel
    obtain ⟨hf, hn, hcur, htail⟩ := h
    obtain ⟨l, hl, hlne⟩ := hasNext_true_cases hn
    have hcur2 : extractEndpoint l = nextCursor p := by
      simp [nextCursor, hl]
    match fuel, hfuel with
    | fuel + 1, hfuel =>
      rw [aux_follow_step fetch p l c acc s fuel hc hf hl hlne, hcur2]
      rw [ih q (nextCursor p) (acc ++ p.Data)
        ⟨s.page + 1, s.requests + 1, s.delays + 1⟩ fuel htail hcur
        (by simpa using hfuel)]
      simp only [Option.some.injEq, Except.ok.injEq, Prod.mk.injEq,
        LoopStats.mk.injEq, List.map_cons, List.flatten_cons,
        List.append_assoc, List.length_cons, true_and]
      refine ⟨?_, ?_, ?_⟩ <;> omega

/-- Running the loop over a prefix of successfully followed pages: one
fuel unit, one request, one page increment and one delay per page, and
the loop resumes at the cursor past the prefix. -/
lemma aux_prefixChain (fetch : String → PageResult) :
    ∀ (ps : List ProgramsResponse) (c : String) (acc : List Program)
      (s : LoopStats) (fuel : Nat),
      prefixChain fetch c ps → c ≠ "" →
      getAllProgramsPaginatedAux fetch (ps.length + fuel) c acc s =
        getAllProgramsPaginatedAux fetch fuel (endCursor c ps)
          (acc ++ (ps.map ProgramsResponse.Data).flatten)
          ⟨s.page + ps.length, s.requests + ps.length,
           s.delays + ps.length⟩ := by
  intro ps
  induction ps with
  | nil =>
    intro c acc s fuel _ _
    cases s
    simp [endCursor]
  | cons p ps ih =>
    intro c acc s fuel h hc
    obtain ⟨hf, hn, hcur, htail⟩ := h
    obtain ⟨l, hl, hlne⟩ := hasNext_true_cases hn
    have hcur2 : extractEndpoint l = nextCursor p := by
      simp [nextCursor, hl]
    have hlen : (p :: ps).length + fuel = (ps.length + fuel) + 1 := by
      simp [List.length_cons]; omega
    rw [hlen, aux_follow_step fetch p l c acc s (ps.length + fuel) hc hf hl hlne,
      hcur2,
      ih (nextCursor p) (acc ++ p.Data)
        ⟨s.page + 1, s.requests + 1, s.delays + 1⟩ fuel htail hcur]
    simp only [endCursor, List.map_cons, List.flatten_cons, List.append_assoc,
      List.length_cons]
    simp [Nat.add_assoc, Nat.add_comm, Nat.add_left_comm]

/-- The cursor reached past a well-formed prefix is never empty. -/
lemma endCursor_ne (fetch : String → PageResult) :
    ∀ (ps : List ProgramsResponse) (c : String),
      prefixChain fetch c ps → c ≠ "" → endCursor c ps ≠ "" := by
  intro ps
  induction ps with
  | nil => intro c _ hc; exact hc
  | cons p ps ih =>
    intro c h _
    obtain ⟨_, _, hcur, htail⟩ := h
    exact ih (nextCursor p) htail hcur

/-- A server that answers every request with the same page whose `next`
link is non-empty and strips to a non-empty endpoint starves the loop of
any exit: no amount of fuel completes it. -/
lemma aux_const_none (fetch : String → PageResult) (P : ProgramsResponse)
    (l : String) (hfetch : ∀ c, fetch c = PageResult.ok P)
    (hl : P.Links.lookup "next" = some l) (hlne : l ≠ "")
    (hee : extractEndpoint l ≠ "") :
    ∀ (fuel : Nat) (c : String) (acc : List Program) (s : LoopStats),
      c ≠ "" → getAllProgramsPaginatedAux fetch fuel c acc s = none := by
  intro fuel
  induction fuel with
  | zero => intro c acc s _; rfl
  | succ fuel ih =>
    intro c acc s hc
    rw [aux_follow_step fetch P l c acc s fuel hc (hfetch c) hl hlne]
    exact ih (extractEndpoint l) (acc ++ P.Data)
      ⟨s.page + 1, s.requests + 1, s.delays + 1⟩ hee

/-! ### Helper lemmas about the save-path round trip -/

lemma decodeProgram_encodeProgram (p : Program) :
    decodeProgram (encodeProgram p) = some p := rfl

lemma decodeProgram_encodeProgramRev (p : Program) :
    decodeProgram (encodeProgramRev p) = some p := rfl

lemma decodeProgramList_encode (ps : List Program) :
    decodeProgramList (ps.map encodeProgram) = some ps := by
  induction ps with
  | nil => rfl
  | cons p ps ih =>
    simp [decodeProgramList, decodeProgram_encodeProgram, ih]

lemma decodeProgramList_encodeRev (ps : List Program) :
    decodeProgramList (ps.map encodeProgramRev) = some ps := by
  induction ps with
  | nil => rfl
  | cons p ps ih =>
    simp [decodeProgramList, decodeProgram_encodeProgramRev, ih]

/-! ### Helper lemma about character-list prefix stripping -/

lemma isPrefixOf_append_drop :
    ∀ (p l : List Char), p.isPrefixOf l = true → p ++ l.drop p.length = l := by
  intro p
  induction p with
  | nil => intro l _; simp
  | cons a as ih =>
    intro l h
    cases l with
    | nil => simp at h
    | cons b bs =>
      rw [List.isPrefixOf_cons₂, Bool.and_eq_true] at h
      obtain ⟨h1, h2⟩ := h
      have hab : a = b := by simpa using h1
      simp [hab, ih bs h2]

/-! ### Concrete sample data used by witnesses and counterexamples -/

def sampleProgram1 : Program :=
  ⟨"1337", "program", ⟨"acme", "Acme Corp", "USD", "", "public_mode", true, false⟩⟩

def sampleProgram2 : Program :=
  ⟨"2048", "program", ⟨"globex", "Globex", "EUR", "no bots", "public_mode", false, true⟩⟩

/-- Page 1 of a well-formed two-page chain: its next link extends the
base URL by a non-empty path. -/
def chainPage1 : ProgramsResponse :=
  ⟨[sampleProgram1],
   [("next", "https://api.hackerone.com/v1/hackers/programs?page=2")]⟩

/-- Page 2 of the chain: no links at all. -/
def chainPage2 : ProgramsResponse := ⟨[sampleProgram2], []⟩

/-- A server serving the two-page chain keyed by cursor. -/
def chainFetch : String → PageResult := fun c =>
  if c = "/programs?page=2" then PageResult.ok chainPage2
  else PageResult.ok chainPage1

lemma chainFetch_chainFrom :
    chainFrom chainFetch "/programs" [chainPage1, chainPage2] :=
  ⟨rfl, by decide, by decide, rfl, by decide⟩

/-- A page whose `next` link is non-empty but equal to the base URL
exactly, so its extracted cursor is the empty string. -/
def delayPage : ProgramsResponse := ⟨[sampleProgram1], [("next", baseURL)]⟩

/-- A server answering every request with `delayPage`. -/
def delayFetch : String → PageResult := fun _ => PageResult.ok delayPage

/-- The second page the `delayPage` server would serve under the claim's
chain reading (never actually requested by the loop). -/
def edgePage2 : ProgramsResponse := ⟨[sampleProgram2], []⟩

/-- A server serving `delayPage` at the initial cursor and `edgePage2`
everywhere else (in particular at the empty extracted cursor). -/
def edgeFetch : String → PageResult := fun c =>
  if c = "/programs" then PageResult.ok delayPage else PageResult.ok edgePage2

/-! ### Claim theorems -/

/-- C5: `extractEndpoint` strips the known base URL prefix when the link
starts with it (dropping exactly the prefix length) and returns the raw
link unchanged otherwise; the stripping prefix equals the `BaseURL` that
`NewH1Client` configures and that `makeRequest` prepends via
`requestURL`, so for every prefixed link the full request URL built from
the derived cursor reproduces the original link. -/
theorem extractEndpoint_roundtrip (link username token : String) :
    (baseURL.data.isPrefixOf link.data = true →
       extractEndpoint link = String.mk (link.data.drop baseURL.data.length) ∧
       requestURL (NewH1Client username token) (extractEndpoint link) = link) ∧
    (baseURL.data.isPrefixOf link.data = false →
       extractEndpoint link = link) ∧
    (NewH1Client username token).BaseURL = baseURL := by
  refine ⟨?_, ?_, rfl⟩
  · intro h
    have he : extractEndpoint link =
        String.mk (link.data.drop baseURL.data.length) := by
      simp [extractEndpoint, h]
    refine ⟨he, ?_⟩
    rw [he]
    apply String.ext
    show (baseURL ++ String.mk (link.data.drop baseURL.data.length)).data
      = link.data
    rw [String.data_append]
    exact isPrefixOf_append_drop _ _ h
  · intro h
    simp [extractEndpoint, h]

/-- C5 witness: a prefixed link strips to its path and round-trips back
through the request URL; an unprefixed link passes through unchanged. -/
theorem extractEndpoint_roundtrip_witness :
    baseURL.data.isPrefixOf
      ("https://api.hackerone.com/v1/hackers/programs?page=2" : String).data = true ∧
    extractEndpoint "https://api.hackerone.com/v1/hackers/programs?page=2"
      = "/programs?page=2" ∧
    requestURL (NewH1Client "user" "token")
        (extractEndpoint "https://api.hackerone.com/v1/hackers/programs?page=2")
      = "https://api.hackerone.com/v1/hackers/programs?page=2" ∧
    extractEndpoint "https://example.com/x" = "https://example.com/x" := by
  refine ⟨by decide, ?_, ?_, ?_⟩
  · exact ((extractEndpoint_roundtrip
      "https://api.hackerone.com/v1/hackers/programs?page=2" "user" "token").1
      (by decide)).1
  · exact ((extractEndpoint_roundtrip
      "https://api.hackerone.com/v1/hackers/programs?page=2" "user" "token").1
      (by decide)).2
  · exact (extractEndpoint_roundtrip
      "https://example.com/x" "user" "token").2.1 (by decide)

/-- C6: `makeRequest` is single-attempt: a transport error is returned
as is with no bytes; any non-200 status yields the status error built
from the status line, regardless of the body; a body-read failure is
returned as is; and only a 200 response with a readable body yields the
raw bytes with no error.  The oracle is consulted exactly once. -/
theorem makeRequest_spec (world : String → Except String HttpResponse)
    (c : H1Client) (method endpoint : String) :
    (∀ e, world (requestURL c endpoint) = Except.error e →
       makeRequest world c method endpoint = Except.error e) ∧
    (∀ r, world (requestURL c endpoint) = Except.ok r → r.StatusCode ≠ 200 →
       makeRequest world c method endpoint =
         Except.error ("API request failed with status: " ++ r.Status)) ∧
    (∀ r e, world (requestURL c endpoint) = Except.ok r →
       r.StatusCode = 200 → r.Body = Except.error e →
       makeRequest world c method endpoint = Except.error e) ∧
    (∀ r b, world (requestURL c endpoint) = Except.ok r →
       r.StatusCode = 200 → r.Body = Except.ok b →
       makeRequest world c method endpoint = Except.ok b) := by
  refine ⟨?_, ?_, ?_, ?_⟩
  · intro e h; simp [makeRequest, h]
  · intro r h hs; simp [makeRequest, h, hs]
  · intro r e h hs hb; simp [makeRequest, h, hs, hb]
  · intro r b h hs hb; simp [makeRequest, h, hs, hb]

def worldTransportErr : String → Except String HttpResponse :=
  fun _ => Except.error "connection refused"

def respNotFound : HttpResponse :=
  ⟨404, "404 Not Found", Except.ok "irrelevant"⟩

def worldNotFound : String → Except String HttpResponse :=
  fun _ => Except.ok respNotFound

def respBadBody : HttpResponse := ⟨200, "200 OK", Except.error "read failed"⟩

def worldBadBody : String → Except String HttpResponse :=
  fun _ => Except.ok respBadBody

def respOK : HttpResponse := ⟨200, "200 OK", Except.ok "raw-page-bytes"⟩

def worldOK : String → Except String HttpResponse :=
  fun _ => Except.ok respOK

/-- C6 witness: the four behaviors at concrete worlds. -/
theorem makeRequest_spec_witness :
    makeRequest worldTransportErr (NewH1Client "u" "t") "GET" "/programs"
      = Except.error "connection refused" ∧
    makeRequest worldNotFound (NewH1Client "u" "t") "GET" "/programs"
      = Except.error "API request failed with status: 404 Not Found" ∧
    makeRequest worldBadBody (NewH1Client "u" "t") "GET" "/programs"
      = Except.error "read failed" ∧
    makeRequest worldOK (NewH1Client "u" "t") "GET" "/programs"
      = Except.ok "raw-page-bytes" :=
  ⟨(makeRequest_spec worldTransportErr (NewH1Client "u" "t") "GET" "/programs").1
      "connection refused" rfl,
   (makeRequest_spec worldNotFound (NewH1Client "u" "t") "GET" "/programs").2.1
      respNotFound rfl (by decide),
   (makeRequest_spec worldBadBody (NewH1Client "u" "t") "GET" "/programs").2.2.1
      respBadBody "read failed" rfl rfl rfl,
   (makeRequest_spec worldOK (NewH1Client "u" "t") "GET" "/programs").2.2.2
      respOK "raw-page-bytes" rfl rfl rfl⟩

/-- C7: the JSON document `SaveProgramsToFile` writes, deserialized back
into `[]Program`, is structurally equal to the in-memory sequence; the
decoder locates fields by name, so the same holds with every object's
field order reversed. -/
theorem save_roundtrip (programs : List Program) :
    unmarshalPrograms (SaveProgramsToFileContent programs) = some programs ∧
    unmarshalPrograms (savedContentRev programs) = some programs :=
  ⟨decodeProgramList_encode programs, decodeProgramList_encodeRev programs⟩

/-- C1 counterexample: a two-page chain in the claim's sense (page 1
carries the non-empty next link `baseURL`, page 2 carries none), on
which the collector returns only page 1's items: the link strips to the
empty cursor, so the loop exits without ever requesting page 2, and the
result is not the concatenation of both pages' Data arrays. -/
theorem spec_chain_base_url_link_truncates :
    specChainFrom edgeFetch "/programs" [delayPage, edgePage2] ∧
    GetAllProgramsPaginated edgeFetch 5 =
      some (Except.ok ([sampleProgram1], ⟨2, 1, 1⟩)) ∧
    (([delayPage, edgePage2].map ProgramsResponse.Data).flatten
      ≠ [sampleProgram1]) :=
  ⟨⟨rfl, by decide, rfl, by decide⟩, rfl, by decide⟩

/-- C1 (amended): for every finite chain of pages in which each
non-terminal page carries a non-empty next link whose extracted endpoint
is also non-empty (that is, the link is not exactly the base URL) and
the terminal page carries no non-empty next link,
`GetAllProgramsPaginated` returns exactly the concatenation of the
pages' Data arrays in page-arrival order, with no filtering or
deduplication. -/
theorem chain_concatenation_amended (fetch : String → PageResult)
    (ps : List ProgramsResponse) (fuel : Nat)
    (h : chainFrom fetch "/programs" ps) (hfuel : ps.length + 1 ≤ fuel) :
    ∃ s : LoopStats,
      GetAllProgramsPaginated fetch fuel =
        some (Except.ok ((ps.map ProgramsResponse.Data).flatten, s)) := by
  cases ps with
  | nil => exact h.elim
  | cons p tail =>
    refine ⟨⟨1 + tail.length, 0 + tail.length + 1, 0 + tail.length⟩, ?_⟩
    have hm := aux_chainFrom fetch tail p "/programs" [] ⟨1, 0, 0⟩ fuel h
      (by decide) (by simpa using hfuel)
    simpa [GetAllProgramsPaginated] using hm

/-- C1 witness: the two-page chain served by `chainFetch` collects both
pages' items in order. -/
theorem chain_concatenation_amended_witness :
    chainFrom chainFetch "/programs" [chainPage1, chainPage2] ∧
    ([chainPage1, chainPage2].length + 1 ≤ 5) ∧
    ∃ s : LoopStats,
      GetAllProgramsPaginated chainFetch 5 =
        some (Except.ok ([sampleProgram1, sampleProgram2], s)) :=
  ⟨chainFetch_chainFrom, by decide,
   chain_concatenation_amended chainFetch [chainPage1, chainPage2] 5
     chainFetch_chainFrom (by decide)⟩

/-- C2: if the loop's fetch of page `k` fails from `makeRequest`
(transport or status error) or from `json.Unmarshal`, after pages
`1..k-1` were fetched and followed successfully, the collector returns
no items: only an error whose message names page index `k`. -/
theorem page_failure_returns_error_only (fetch : String → PageResult)
    (ps : List ProgramsResponse) (e : String) (fuel : Nat)
    (h : prefixChain fetch "/programs" ps) (hfuel : ps.length + 1 ≤ fuel) :
    (fetch (endCursor "/programs" ps) = PageResult.fetchErr e →
       GetAllProgramsPaginated fetch fuel =
         some (Except.error
           ("error fetching page " ++ toString (ps.length + 1) ++ ": " ++ e))) ∧
    (fetch (endCursor "/programs" ps) = PageResult.parseErr e →
       GetAllProgramsPaginated fetch fuel =
         some (Except.error
           ("error parsing page " ++ toString (ps.length + 1) ++ ": " ++ e))) := by
  obtain ⟨f, rfl⟩ : ∃ f, fuel = ps.length + (f + 1) :=
    ⟨fuel - ps.length - 1, by omega⟩
  have hrun := aux_prefixChain fetch ps "/programs" [] ⟨1, 0, 0⟩ (f + 1) h
    (by decide)
  have hend := endCursor_ne fetch ps "/programs" h (by decide)
  constructor
  · intro hfail
    rw [GetAllProgramsPaginated, hrun,
      aux_fetchErr_step fetch e (endCursor "/programs" ps) _ _ f hend hfail]
    simp [Nat.add_comm]
  · intro hfail
    rw [GetAllProgramsPaginated, hrun,
      aux_parseErr_step fetch e (endCursor "/programs" ps) _ _ f hend hfail]
    simp [Nat.add_comm]

/-- A server serving `chainPage1` at the initial cursor and a transport
failure at every other cursor. -/
def failFetch : String → PageResult := fun c =>
  if c = "/programs" then PageResult.ok chainPage1
  else PageResult.fetchErr "connection reset"

/-- C2 witness: page 1 succeeds, page 2 fails, and the collector returns
only the error naming page 2. -/
theorem page_failure_returns_error_only_witness :
    prefixChain failFetch "/programs" [chainPage1] ∧
    failFetch (endCursor "/programs" [chainPage1])
      = PageResult.fetchErr "connection reset" ∧
    GetAllProgramsPaginated failFetch 5 =
      some (Except.error "error fetching page 2: connection reset") :=
  ⟨⟨rfl, by decide, by decide, trivial⟩, by decide,
   (page_failure_returns_error_only failFetch [chainPage1]
       "connection reset" 5 ⟨rfl, by decide, by decide, trivial⟩
       (by decide)).1 (by decide)⟩

/-- C3 counterexample: a successful run over one page (one request) that
performs one delay, not zero: the only page's next link is non-empty
(exactly the base URL), so the code sleeps once and then exits at the
empty extracted cursor. -/
theorem terminal_base_url_link_wasted_delay :
    GetAllProgramsPaginated delayFetch 3 =
      some (Except.ok ([sampleProgram1], ⟨2, 1, 1⟩)) ∧
    ¬ ((1 : Nat) = 1 - 1) :=
  ⟨rfl, by decide⟩

/-- C3 (amended): over an n-page chain whose non-terminal next links
strip to non-empty cursors and whose terminal page has no non-empty next
link, a successful run performs exactly n requests and n-1 delays; a
delay is performed after each successfully parsed page whose raw next
link is non-empty — including, wastefully, a terminal page whose link
strips to the empty cursor — and never before the first request. -/
theorem delay_count_amended :
    (∀ (fetch : String → PageResult) (ps : List ProgramsResponse) (fuel : Nat),
       chainFrom fetch "/programs" ps → ps.length + 1 ≤ fuel →
       ∃ progs : List Program,
         GetAllProgramsPaginated fetch fuel =
           some (Except.ok
             (progs, ⟨ps.length, ps.length, ps.length - 1⟩))) ∧
    (∀ (fetch : String → PageResult) (p : ProgramsResponse) (l : String)
       (fuel : Nat),
       fetch "/programs" = PageResult.ok p →
       p.Links.lookup "next" = some l → l ≠ "" → extractEndpoint l = "" →
       GetAllProgramsPaginated fetch (fuel + 2) =
         some (Except.ok (p.Data, ⟨2, 1, 1⟩))) := by
  constructor
  · intro fetch ps fuel h hfuel
    cases ps with
    | nil => exact h.elim
    | cons p tail =>
      refine ⟨((p :: tail).map ProgramsResponse.Data).flatten, ?_⟩
      rw [GetAllProgramsPaginated,
        aux_chainFrom fetch tail p "/programs" [] ⟨1, 0, 0⟩ fuel h
          (by decide) (by simpa using hfuel)]
      simp only [List.nil_append, Option.some.injEq, Except.ok.injEq,
        Prod.mk.injEq, LoopStats.mk.injEq, List.length_cons, true_and]
      refine ⟨?_, ?_, ?_⟩ <;> omega
  · intro fetch p l fuel hf hl hlne hee
    rw [GetAllProgramsPaginated,
      aux_follow_step fetch p l "/programs" [] ⟨1, 0, 0⟩ (fuel + 1)
        (by decide) hf hl hlne, hee]
    simp [getAllProgramsPaginatedAux]

/-- C3 witness: the two-page chain performs exactly one delay, and the
wasted-delay edge run performs one request and one delay. -/
theorem delay_count_amended_witness :
    (∃ progs : List Program,
       GetAllProgramsPaginated chainFetch 5 =
         some (Except.ok (progs, ⟨2, 2, 1⟩))) ∧
    GetAllProgramsPaginated delayFetch 3 =
      some (Except.ok (delayPage.Data, ⟨2, 1, 1⟩)) :=
  ⟨delay_count_amended.1 chainFetch [chainPage1, chainPage2] 5
     chainFetch_chainFrom (by decide),
   delay_count_amended.2 delayFetch delayPage baseURL 1 rfl (by decide)
     (by decide) (by decide)⟩

/-- C4 counterexample: the claim that a server returning the same
non-empty next link on every page makes the loop run forever is false:
with the link equal to the base URL exactly, the loop terminates after
one request. -/
theorem constant_base_url_link_terminates :
    ¬ (∀ (fetch : String → PageResult) (P : ProgramsResponse) (l : String),
        (∀ c, fetch c = PageResult.ok P) →
        P.Links.lookup "next" = some l → l ≠ "" →
        ∀ fuel, GetAllProgramsPaginated fetch fuel = none) := by
  intro hclaim
  have h := hclaim delayFetch delayPage baseURL (fun _ => rfl) (by decide)
    (by decide) 3
  have h2 : GetAllProgramsPaginated delayFetch 3 =
      some (Except.ok ([sampleProgram1], ⟨2, 1, 1⟩)) := rfl
  rw [h] at h2
  exact Option.noConfusion h2

/-- C4 (amended): termination depends only on server-supplied next
links: every chain whose non-terminal links strip to non-empty cursors
and which eventually yields a page with no non-empty next link makes the
loop terminate after exactly that many requests, while a server that
returns on every page the same non-empty next link whose extracted
endpoint is also non-empty makes the loop run forever (no cycle guard or
page cap exists). -/
theorem termination_by_next_links_amended :
    (∀ (fetch : String → PageResult) (ps : List ProgramsResponse) (fuel : Nat),
       chainFrom fetch "/programs" ps → ps.length + 1 ≤ fuel →
       ∃ (progs : List Program) (s : LoopStats),
         GetAllProgramsPaginated fetch fuel = some (Except.ok (progs, s)) ∧
         s.requests = ps.length) ∧
    (∀ (fetch : String → PageResult) (P : ProgramsResponse) (l : String),
       (∀ c, fetch c = PageResult.ok P) →
       P.Links.lookup "next" = some l → l ≠ "" → extractEndpoint l ≠ "" →
       ∀ fuel, GetAllProgramsPaginated fetch fuel = none) := by
  constructor
  · intro fetch ps fuel h hfuel
    cases ps with
    | nil => exact h.elim
    | cons p tail =>
      refine ⟨((p :: tail).map ProgramsResponse.Data).flatten,
        ⟨1 + tail.length, 0 + tail.length + 1, 0 + tail.length⟩, ?_, by
          simp [List.length_cons]⟩
      have hm := aux_chainFrom fetch tail p "/programs" [] ⟨1, 0, 0⟩ fuel h
        (by decide) (by simpa using hfuel)
      simpa [GetAllProgramsPaginated] using hm
  · intro fetch P l hfetch hl hlne hee fuel
    exact aux_const_none fetch P l hfetch hl hlne hee fuel "/programs" []
      ⟨1, 0, 0⟩ (by decide)

/-- A page whose next link extends the base URL, served identically at
every cursor: the loop can never exit. -/
def loopPage : ProgramsResponse :=
  ⟨[sampleProgram1],
   [("next", "https://api.hackerone.com/v1/hackers/programs?page=2")]⟩

def loopFetch : String → PageResult := fun _ => PageResult.ok loopPage

/-- C4 witness: the two-page chain terminates in two requests; the
constant-link server exhausts any amount of fuel. -/
theorem termination_by_next_links_amended_witness :
    (∃ (progs : List Program) (s : LoopStats),
       GetAllProgramsPaginated chainFetch 5 = some (Except.ok (progs, s)) ∧
       s.requests = 2) ∧
    GetAllProgramsPaginated loopFetch 7 = none :=
  ⟨termination_by_next_links_amended.1 chainFetch [chainPage1, chainPage2] 5
     chainFetch_chainFrom (by decide),
   termination_by_next_links_amended.2 loopFetch loopPage
     "https://api.hackerone.com/v1/hackers/programs?page=2"
     (fun _ => rfl) (by decide) (by decide) (by decide) 7⟩

/-- C9: a page decoded with no `links` object at all (nil map, embedded
as the empty association list), with a `links` object lacking `"next"`,
or with `"next"` equal to the empty string, is treated identically: the
loop appends the page's items, counts the request, performs no delay and
terminates successfully — no error is raised for the missing field. -/
theorem missing_next_terminates (fetch : String → PageResult)
    (p : ProgramsResponse) (c : String) (acc : List Program)
    (s : LoopStats) (fuel : Nat) (hc : c ≠ "")
    (hf : fetch c = PageResult.ok p)
    (h : p.Links = [] ∨ p.Links.lookup "next" = none ∨
         p.Links.lookup "next" = some "") :
    getAllProgramsPaginatedAux fetch (fuel + 2) c acc s =
      some (Except.ok (acc ++ p.Data, ⟨s.page, s.requests + 1, s.delays⟩)) := by
  have hn : hasNext p = false := by
    rcases h with h | h | h <;> simp [hasNext, h]
  exact aux_terminal_step fetch p c acc s fuel hc hf hn

/-- A single page with an empty links map. -/
def noLinksPage : ProgramsResponse := ⟨[sampleProgram1], []⟩

def noLinksFetch : String → PageResult := fun _ => PageResult.ok noLinksPage

/-- C9 witness: a first page with no links object terminates the run
with its items and no delay. -/
theorem missing_next_terminates_witness :
    noLinksFetch "/programs" = PageResult.ok noLinksPage ∧
    noLinksPage.Links = [] ∧
    getAllProgramsPaginatedAux noLinksFetch 2 "/programs" [] ⟨1, 0, 0⟩ =
      some (Except.ok ([sampleProgram1], ⟨1, 1, 0⟩)) :=
  ⟨rfl, rfl,
   missing_next_terminates noLinksFetch noLinksPage "/programs" [] ⟨1, 0, 0⟩ 0
     (by decide) rfl (Or.inl rfl)⟩

/-- C8: if either credential variable is absent or empty, `main` stops
at the fatal configuration message before any network-reaching mode is
selected, whatever the argument list (and whatever the case mapping of
`strings.ToLower`). -/
theorem missing_creds_fatal (lowerRune : Char → Char)
    (env : String → Option String) (args : List String)
    (h : env "HACKERONE_USERNAME" = none ∨ env "HACKERONE_USERNAME" = some ""
       ∨ env "HACKERONE_TOKEN" = none ∨ env "HACKERONE_TOKEN" = some "") :
    mainAction lowerRune env args = CommandAction.fatal missingCredsMsg ∧
    isNetworkAction (mainAction lowerRune env args) = false := by
  have hcred : getenv env "HACKERONE_USERNAME" = "" ∨
      getenv env "HACKERONE_TOKEN" = "" := by
    rcases h with h | h | h | h
    · exact Or.inl (by simp [getenv, h])
    · exact Or.inl (by simp [getenv, h])
    · exact Or.inr (by simp [getenv, h])
    · exact Or.inr (by simp [getenv, h])
  have hm : mainAction lowerRune env args = CommandAction.fatal missingCredsMsg := by
    simp only [mainAction]
    rw [if_pos hcred]
  exact ⟨hm, by rw [hm]; rfl⟩

/-- An environment with no variables set at all. -/
def envNone : String → Option String := fun _ => none

/-- C8 witness: with nothing in the environment, every invocation stops
at the credentials error and reaches no network action. -/
theorem missing_creds_fatal_witness :
    (envNone "HACKERONE_USERNAME" = none ∨
       envNone "HACKERONE_USERNAME" = some ""
       ∨ envNone "HACKERONE_TOKEN" = none ∨ envNone "HACKERONE_TOKEN" = some "") ∧
    mainAction Char.toLower envNone ["h1module", "programs-all"] =
      CommandAction.fatal missingCredsMsg ∧
    isNetworkAction
      (mainAction Char.toLower envNone ["h1module", "programs-all"]) = false :=
  ⟨Or.inl rfl,
   (missing_creds_fatal Char.toLower envNone ["h1module", "programs-all"]
      (Or.inl rfl)).1,
   (missing_creds_fatal Char.toLower envNone ["h1module", "programs-all"]
      (Or.inl rfl)).2⟩

lemma dispatchMode_fatal_iff (lmode : String) (argc : Nat) (arg2 : String) :
    dispatchMode lmode argc arg2 = CommandAction.fatal invalidModeMsg ↔
      lmode ∉ subcommandNames := by
  unfold dispatchMode
  split_ifs with h1 h2 h3 h4 h5 h6 h7 h8 h9 h10 <;>
    simp_all [subcommandNames, invalidModeMsg]

/-- C10: subcommand dispatch is case-insensitive: with credentials
present, `main` matches on `ToLower` of `os.Args[1]` — for every
per-rune case mapping that `strings.ToLower` may apply, in particular
the actual Unicode one — so the selected action depends on the mode
string only through its lowered form (any case variant selects the same
mode as the lowercase form), and the unknown-subcommand fatal error
occurs exactly when the lowered form is none of the six subcommand
names. -/
theorem dispatch_case_insensitive (lowerRune : Char → Char)
    (env : String → Option String)
    (argv0 mode mode2 : String) (rest : List String)
    (hu : getenv env "HACKERONE_USERNAME" ≠ "")
    (ht : getenv env "HACKERONE_TOKEN" ≠ "") :
    (mainAction lowerRune env (argv0 :: mode :: rest) =
       dispatchMode (ToLower lowerRune mode) (rest.length + 2)
         (rest.getD 0 "")) ∧
    (ToLower lowerRune mode = ToLower lowerRune mode2 →
       mainAction lowerRune env (argv0 :: mode :: rest) =
         mainAction lowerRune env (argv0 :: mode2 :: rest)) ∧
    (mainAction lowerRune env (argv0 :: mode :: rest) =
        CommandAction.fatal invalidModeMsg ↔
       ToLower lowerRune mode ∉ subcommandNames) := by
  have hcond : ¬ (getenv env "HACKERONE_USERNAME" = "" ∨
      getenv env "HACKERONE_TOKEN" = "") := by
    simp [hu, ht]
  have hmain : ∀ m : String, mainAction lowerRune env (argv0 :: m :: rest) =
      dispatchMode (ToLower lowerRune m) (rest.length + 2) (rest.getD 0 "") := by
    intro m
    simp only [mainAction]
    rw [if_neg hcond]
    have hlen : ¬ ((argv0 :: m :: rest).length < 2) := by
      simp [List.length_cons]
    rw [if_neg hlen]
    simp [List.getD_cons_succ, List.getD_cons_zero, List.length_cons,
      Nat.add_assoc]
  refine ⟨hmain mode, ?_, ?_⟩
  · intro h
    rw [hmain mode, hmain mode2, h]
  · rw [hmain mode]
    exact dispatchMode_fatal_iff (ToLower lowerRune mode) (rest.length + 2)
      (rest.getD 0 "")

/-- An environment carrying (non-empty) credentials. -/
def envFull : String → Option String := fun _ => some "secret"

/-- The fragment of `unicode.ToLower` needed by the witness: the
basic-latin mapping extended with the Kelvin sign U+212A, which the
Unicode simple case mapping sends to the ASCII letter `k`. -/
def kelvinLower : Char → Char :=
  fun c => if c = 'K' then 'k' else Char.toLower c

/-- C10 witness: under the ASCII fragment of the mapping, `PROGRAMS`
selects the same mode as `programs`, and a string lowering to no
subcommand name hits the unknown-mode fatal; under the fragment
covering the Kelvin sign, the case variant `WEAKNESSES` of
`weaknesses` is dispatched to the weaknesses mode, not to the
unknown-mode fatal. -/
theorem dispatch_case_insensitive_witness :
    getenv envFull "HACKERONE_USERNAME" ≠ "" ∧
    getenv envFull "HACKERONE_TOKEN" ≠ "" ∧
    mainAction Char.toLower envFull ["h1module", "PROGRAMS"] =
      mainAction Char.toLower envFull ["h1module", "programs"] ∧
    (mainAction Char.toLower envFull ["h1module", "Bogus"] =
        CommandAction.fatal invalidModeMsg ↔
      ToLower Char.toLower "Bogus" ∉ subcommandNames) ∧
    ToLower kelvinLower "WEAKNESSES" = "weaknesses" ∧
    mainAction kelvinLower envFull ["h1module", "WEAKNESSES", "acme"] =
      CommandAction.weaknesses "acme" :=
  ⟨by decide, by decide,
   (dispatch_case_insensitive Char.toLower envFull "h1module"
      "PROGRAMS" "programs" [] (by decide) (by decide)).2.1 (by decide),
   (dispatch_case_insensitive Char.toLower envFull "h1module"
      "Bogus" "Bogus" [] (by decide) (by decide)).2.2,
   by decide,
   Eq.trans
     (dispatch_case_insensitive kelvinLower envFull "h1module"
        "WEAKNESSES" "WEAKNESSES" ["acme"]
        (by decide) (by decide)).1
     (by decide)⟩

end H1Module
